import Mathlib

/-!
# Reconciliation & Batch-Synchronization Engine — verification

Shallow embedding of the reconciliation core of `seller.py` (Ozon) and
`market.py` (Yandex.Market): feed/universe reconciliation (`create_stocks`,
`create_prices`), price normalization (`price_conversion`), batching
(`divide`), catalog paging (`get_offer_ids`), and the orchestration in each
file's `main`.

Modelling conventions:
* Python strings are Lean `String`s; character-level operations go through
  `String.data : List Char`.
* Python `int(s)` on a string is `pyInt`; a `ValueError` is an
  `Except.error`, so fallible Python functions return `Except String _`.
* In-place mutation of the `offer_ids` list by `create_stocks`
  (`offer_ids.remove(...)`) is modelled by returning the final state of that
  list as a second component.
* A paging transport is a finite list of scripted responses; a request past
  the end of the script models a transport failure / divergence (`none`).
-/

set_option autoImplicit false

namespace SellerApis

/-- A supplier feed record as read from `ostatki.xls`: the columns
`"Код"` (code), `"Количество"` (quantity) and `"Цена"` (price), each taken
in its string form (`str(watch.get(...))`). -/
structure FeedRecord where
  code : String
  quantity : String
  price : String
deriving Repr, DecidableEq

/-- One element of the Ozon stocks payload built by `seller.create_stocks`:
`{"offer_id": ..., "stock": ...}` (seller.py line 181). -/
structure StockEntry where
  offer_id : String
  stock : Int
deriving Repr, DecidableEq

/-- Decimal digit-string parser used to model Python `int`:
`some` of the value iff the list is nonempty and all characters are ASCII
digits. -/
def digitsToNat? (l : List Char) : Option Nat :=
  if l = [] then none
  else if l.all Char.isDigit then
    some (l.foldl (fun acc c => acc * 10 + (c.toNat - 48)) 0)
  else none

/-- Python `int(s)` on a character list: an optional single leading sign
followed by decimal digits (whitespace/underscore forms are not used by this
repository's data and are not modelled). -/
def pyIntChars (l : List Char) : Option Int :=
  match l with
  | [] => none
  | c :: rest =>
    if c = '-' then (digitsToNat? rest).map (fun n => -(n : Int))
    else if c = '+' then (digitsToNat? rest).map (fun n => (n : Int))
    else (digitsToNat? (c :: rest)).map (fun n => (n : Int))

/-- Python `int` applied to a string; `none` models `ValueError`. -/
def pyInt (s : String) : Option Int :=
  pyIntChars s.data

/-- The quantity bucketing duplicated inside both `create_stocks` bodies
(seller.py lines 174–180, market.py lines 141–147):
`">10"` ↦ 100, `"1"` ↦ 0, anything else goes through `int(...)`, whose
`ValueError` on an unparseable string is the `Except.error` case. -/
def bucketCount (count : String) : Except String Int :=
  if count = ">10" then .ok 100
  else if count = "1" then .ok 0
  else
    match pyInt count with
    | some n => .ok n
    | none => .error "ValueError: invalid literal for int()"

/-- The spec's QuantityExpr data model: a quantity string is one of the two
sentinels or a decimal representation of a non-negative integer. -/
def QuantityExprOk (q : String) : Prop :=
  q = ">10" ∨ q = "1" ∨ ∃ N, digitsToNat? q.data = some N

namespace seller

/-- The matching pass of `seller.create_stocks` (seller.py lines 171–182):
walk the feed in order; a record whose code is in the current `offer_ids`
list emits a stock entry and removes that code from the list
(`offer_ids.remove(...)` = `List.erase`, first occurrence). Returns the
matched entries in feed order together with the final state of the
(caller-visible, mutated) `offer_ids` list. -/
def create_stocksLoop : List FeedRecord → List String →
    Except String (List StockEntry × List String)
  | [], offer_ids => .ok ([], offer_ids)
  | watch :: rest, offer_ids =>
    if watch.code ∈ offer_ids then
      match bucketCount watch.quantity with
      | .error e => .error e
      | .ok stock =>
        match create_stocksLoop rest (offer_ids.erase watch.code) with
        | .error e => .error e
        | .ok (stocks, remaining) =>
          .ok ({ offer_id := watch.code, stock := stock } :: stocks, remaining)
    else
      create_stocksLoop rest offer_ids

/-- `seller.create_stocks` (seller.py lines 155–186): the matching pass,
then one zero-stock entry for every identifier still left in `offer_ids`.
The second component is the final state of the `offer_ids` list object that
the Python code mutates in place. -/
def create_stocks (watch_remnants : List FeedRecord) (offer_ids : List String) :
    Except String (List StockEntry × List String) :=
  match create_stocksLoop watch_remnants offer_ids with
  | .error e => .error e
  | .ok (stocks, remaining) =>
    .ok (stocks ++ remaining.map (fun offer_id => { offer_id := offer_id, stock := 0 }),
         remaining)

end seller

/-- Python `str.split(sep)[...]` on one-character separators, over the
character list: splits at every occurrence of `sep`; always returns at least
one (possibly empty) segment. -/
def pySplit (sep : Char) : List Char → List (List Char)
  | [] => [[]]
  | c :: rest =>
    if c = sep then [] :: pySplit sep rest
    else
      match pySplit sep rest with
      | [] => [[c]]
      | h :: t => (c :: h) :: t

namespace seller

/-- `seller.price_conversion` (seller.py lines 216–229):
`re.sub("[^0-9]", "", price.split(".")[0])` — take the segment before the
first `'.'` and delete every non-digit character from it. -/
def price_conversion (price : String) : String :=
  String.mk (((pySplit '.' price.data).headD []).filter Char.isDigit)

/-- One element of the Ozon prices payload built by `seller.create_prices`
(seller.py lines 205–211). -/
structure SellerPrice where
  auto_action_enabled : String
  currency_code : String
  offer_id : String
  old_price : String
  price : String
deriving Repr, DecidableEq

/-- `seller.create_prices` (seller.py lines 189–213): walk the feed in
order and emit a price object for every record whose code is in
`offer_ids`; the list passed in is not mutated here. -/
def create_prices : List FeedRecord → List String → List SellerPrice
  | [], _ => []
  | watch :: rest, offer_ids =>
    if watch.code ∈ offer_ids then
      { auto_action_enabled := "UNKNOWN", currency_code := "RUB",
        offer_id := watch.code, old_price := "0",
        price := price_conversion watch.price } :: create_prices rest offer_ids
    else
      create_prices rest offer_ids

/-- `seller.divide` (seller.py lines 232–243), the generator
`for i in range(0, len(lst), n): yield lst[i : i + n]`, unrolled with a
structural fuel argument (the number of remaining loop iterations is at most
the length of the remaining list when `n ≥ 1`). -/
def divideAux {α : Type} (n : Nat) : Nat → List α → List (List α)
  | 0, _ => []
  | _, [] => []
  | fuel + 1, lst => lst.take n :: divideAux n fuel (lst.drop n)

/-- `seller.divide`: for `n = 0` Python's `range(0, len(lst), 0)` raises
`ValueError`; every caller in the repository uses a positive `n`, and the
claims quantify only over positive `n`, so the `n = 0` case is mapped to the
empty sequence. -/
def divide {α : Type} (lst : List α) (n : Nat) : List (List α) :=
  if n = 0 then [] else divideAux n lst.length lst

/-- One page of `seller.get_product_list` output: the `"items"` (each item
keeps only the `"offer_id"` field used downstream), the running `"total"`
and the `"last_id"` cursor. -/
structure SellerPage where
  items : List String
  total : Nat
  last_id : String
deriving Repr, DecidableEq

/-- The accumulation loop of `seller.get_offer_ids` (seller.py lines
62–70): extend `product_list` with the page's items, stop as soon as the
page's reported `total` equals the number of items accumulated so far.
The transport is a finite script of page responses; running past the script
(`[]`) models a transport that never satisfies the termination test. -/
def pagerLoop : List SellerPage → List String → Option (List String)
  | [], _ => none
  | page :: rest, acc =>
    let acc2 := acc ++ page.items
    if page.total = acc2.length then some acc2
    else pagerLoop rest acc2

/-- `seller.get_offer_ids` (seller.py lines 48–74): drain the pager, then
project each accumulated product to its `offer_id` (the projection is the
identity here because pages already carry offer ids). -/
def get_offer_ids (responses : List SellerPage) : Option (List String) :=
  pagerLoop responses []

/-- The data flow of `seller.main` (seller.py lines 300–310) after the
transports are stripped: `create_stocks` is called on the freshly paged
`offer_ids` list and mutates it in place; `create_prices` is then called on
that same, now-mutated list object. -/
def mainFlow (watch_remnants : List FeedRecord) (offer_ids : List String) :
    Except String (List StockEntry × List SellerPrice) :=
  match create_stocks watch_remnants offer_ids with
  | .error e => .error e
  | .ok (stocks, remaining) => .ok (stocks, create_prices watch_remnants remaining)

end seller

namespace market

/-- The `"offer"` object inside one `offerMappingEntries` element; only the
`"shopSku"` field is used downstream (market.py line 121). -/
structure MarketOffer where
  shopSku : String
deriving Repr, DecidableEq

/-- One element of a Market catalog page's `"offerMappingEntries"`. -/
structure MarketEntry where
  offer : MarketOffer
deriving Repr, DecidableEq

/-- The `"paging"` object of a Market catalog page. -/
structure MarketPaging where
  nextPageToken : String
deriving Repr, DecidableEq

/-- One page of `market.get_product_list` output. -/
structure MarketPage where
  offerMappingEntries : List MarketEntry
  paging : MarketPaging
deriving Repr, DecidableEq

/-- The accumulation loop of `market.get_offer_ids` (market.py lines
111–118): extend `product_list` with the page's entries, stop as soon as the
page carries a falsy (here: empty) `nextPageToken`. The transport is a
finite script of page responses; running past the script models a transport
that never terminates the loop. -/
def pagerLoop : List MarketPage → List MarketEntry → Option (List MarketEntry)
  | [], _ => none
  | page :: rest, acc =>
    let acc2 := acc ++ page.offerMappingEntries
    if page.paging.nextPageToken = "" then some acc2
    else pagerLoop rest acc2

/-- `market.get_offer_ids` (market.py lines 97–122): drain the pager, then
project each accumulated entry to `offer.shopSku`. -/
def get_offer_ids (responses : List MarketPage) : Option (List String) :=
  (pagerLoop responses []).map (fun products => products.map (fun p => p.offer.shopSku))

/-- One element of the `"items"` list in a Market stock payload
(market.py lines 152–158). -/
structure StockItem where
  count : Int
  type : String
  updatedAt : String
deriving Repr, DecidableEq

/-- One element of the Market stocks payload built by
`market.create_stocks` (market.py lines 148–160). -/
structure MarketStockEntry where
  sku : String
  warehouseId : String
  items : List StockItem
deriving Repr, DecidableEq

/-- The payload shape used for both matched and gap-filling entries of
`market.create_stocks`. -/
def toMarketEntry (warehouse_id date : String) (e : StockEntry) : MarketStockEntry :=
  { sku := e.offer_id, warehouseId := warehouse_id,
    items := [{ count := e.stock, type := "FIT", updatedAt := date }] }

/-- The matching pass of `market.create_stocks` (market.py lines 139–161):
same control flow as the seller variant, different payload shape. `date`
models the `datetime.datetime.utcnow()...` timestamp computed once at entry
(market.py line 138), passed here as a parameter. -/
def create_stocksLoop (warehouse_id date : String) :
    List FeedRecord → List String → Except String (List MarketStockEntry × List String)
  | [], offer_ids => .ok ([], offer_ids)
  | watch :: rest, offer_ids =>
    if watch.code ∈ offer_ids then
      match bucketCount watch.quantity with
      | .error e => .error e
      | .ok stock =>
        match create_stocksLoop warehouse_id date rest (offer_ids.erase watch.code) with
        | .error e => .error e
        | .ok (stocks, remaining) =>
          .ok ({ sku := watch.code, warehouseId := warehouse_id,
                 items := [{ count := stock, type := "FIT", updatedAt := date }] } :: stocks,
               remaining)
    else
      create_stocksLoop warehouse_id date rest offer_ids

/-- `market.create_stocks` (market.py lines 125–177): the matching pass,
then one zero-count entry for every identifier still left in `offer_ids`.
The second component is the final state of the mutated `offer_ids` list. -/
def create_stocks (watch_remnants : List FeedRecord) (offer_ids : List String)
    (warehouse_id date : String) : Except String (List MarketStockEntry × List String) :=
  match create_stocksLoop warehouse_id date watch_remnants offer_ids with
  | .error e => .error e
  | .ok (stocks, remaining) =>
    .ok (stocks ++ remaining.map (fun offer_id =>
          { sku := offer_id, warehouseId := warehouse_id,
            items := [{ count := 0, type := "FIT", updatedAt := date }] }),
         remaining)

/-- One campaign's slice of `market.main`: the scripted catalog-paging
transport, the shared feed, the campaign's warehouse, and the set of batch
indices at which the stock-submission transport raises. -/
structure CampaignEnv where
  pages : List MarketPage
  remnants : List FeedRecord
  warehouseId : String
  failAt : List Nat
deriving Repr, DecidableEq

/-- Sequential submission of the stock batches (`for some_stock in
list(divide(stocks, 2000)): update_stocks(...)`, market.py lines 271–272):
batch `i` raises a transport error iff `i ∈ failAt`. -/
def submitFrom (failAt : List Nat) : Nat → List (List MarketStockEntry) → Except String Unit
  | _, [] => .ok ()
  | i, _ :: rest =>
    if i ∈ failAt then .error "TransportError"
    else submitFrom failAt (i + 1) rest

/-- One campaign's body inside the `try` block of `market.main` (market.py
lines 268–274 resp. 277–283): page the catalog, reconcile, submit the stock
batches. Any raised exception is propagated to the caller as `.error`.
(The `upload_prices(...)` coroutine on lines 274/283 is created but never
awaited, so it has no observable effect and is not modelled.) -/
def runCampaign (env : CampaignEnv) (date : String) : Except String (List MarketStockEntry) :=
  match get_offer_ids env.pages with
  | none => .error "TransportError"
  | some offer_ids =>
    match create_stocks env.remnants offer_ids env.warehouseId date with
    | .error e => .error e
    | .ok (stocks, _) =>
      match submitFrom env.failAt 0 (seller.divide stocks 2000) with
      | .error e => .error e
      | .ok _ => .ok stocks

/-- `market.main` (market.py lines 257–289): the FBS campaign and then the
DBS campaign run inside one shared `try ... except` block, so an exception
raised by the first campaign skips the second entirely. The result records
which campaigns completed and with what stock dataset. -/
def main (fbs dbs : CampaignEnv) (date : String) :
    Option (List MarketStockEntry) × Option (List MarketStockEntry) :=
  match runCampaign fbs date with
  | .error _ => (none, none)
  | .ok s1 =>
    match runCampaign dbs date with
    | .error _ => (some s1, none)
    | .ok s2 => (some s1, some s2)

end market

/-- Concatenation of the item lists of a prefix of seller catalog pages
(used to state what the pager accumulates). -/
def itemsUpTo : List seller.SellerPage → List String
  | [] => []
  | p :: rest => p.items ++ itemsUpTo rest

/-- Concatenation of the `offerMappingEntries` lists of a prefix of Market
catalog pages. -/
def entriesUpTo : List market.MarketPage → List market.MarketEntry
  | [] => []
  | p :: rest => p.offerMappingEntries ++ entriesUpTo rest

/-- Modelled from the spec's words (§8, price normalization), for
comparison with `seller.price_conversion`: truncate the string at the first
`'.'` and keep only the digit characters of that prefix. -/
def normalize_price_spec (s : String) : String :=
  String.mk ((s.data.takeWhile (fun c => c != '.')).filter Char.isDigit)

/-! ## Helper lemmas about the matching pass -/

theorem create_stocksLoop_perm :
    ∀ (F : List FeedRecord) (U : List String) (m : List StockEntry) (r : List String),
      seller.create_stocksLoop F U = .ok (m, r) →
      (m.map StockEntry.offer_id ++ r).Perm U := by
  intro F
  induction F with
  | nil =>
    intro U m r h
    simp only [seller.create_stocksLoop] at h
    cases h
    simp
  | cons w rest ih =>
    intro U m r h
    simp only [seller.create_stocksLoop] at h
    by_cases hw : w.code ∈ U
    · rw [if_pos hw] at h
      cases hbq : bucketCount w.quantity with
      | error e => rw [hbq] at h; cases h
      | ok k =>
        rw [hbq] at h
        cases hloop : seller.create_stocksLoop rest (U.erase w.code) with
        | error e => rw [hloop] at h; cases h
        | ok p =>
          obtain ⟨m', r'⟩ := p
          rw [hloop] at h
          cases h
          simp only [List.map_cons, List.cons_append]
          exact ((ih _ _ _ hloop).cons w.code).trans (List.perm_cons_erase hw).symm
    · rw [if_neg hw] at h
      exact ih U m r h

theorem create_stocksLoop_sublist :
    ∀ (F : List FeedRecord) (U : List String) (m : List StockEntry) (r : List String),
      seller.create_stocksLoop F U = .ok (m, r) →
      (m.map StockEntry.offer_id).Sublist (F.map FeedRecord.code) ∧ r.Sublist U := by
  intro F
  induction F with
  | nil =>
    intro U m r h
    simp only [seller.create_stocksLoop] at h
    cases h
    simp
  | cons w rest ih =>
    intro U m r h
    simp only [seller.create_stocksLoop] at h
    by_cases hw : w.code ∈ U
    · rw [if_pos hw] at h
      cases hbq : bucketCount w.quantity with
      | error e => rw [hbq] at h; cases h
      | ok k =>
        rw [hbq] at h
        cases hloop : seller.create_stocksLoop rest (U.erase w.code) with
        | error e => rw [hloop] at h; cases h
        | ok p =>
          obtain ⟨m', r'⟩ := p
          rw [hloop] at h
          cases h
          obtain ⟨h1, h2⟩ := ih _ _ _ hloop
          refine ⟨?_, h2.trans (List.erase_sublist _ _)⟩
          simpa using h1.cons₂ w.code
    · rw [if_neg hw] at h
      obtain ⟨h1, h2⟩ := ih U m r h
      exact ⟨h1.cons w.code, h2⟩

theorem create_stocksLoop_from_feed :
    ∀ (F : List FeedRecord) (U : List String) (m : List StockEntry) (r : List String),
      seller.create_stocksLoop F U = .ok (m, r) →
      ∀ e ∈ m, ∃ w ∈ F, w.code = e.offer_id ∧ bucketCount w.quantity = .ok e.stock := by
  intro F
  induction F with
  | nil =>
    intro U m r h
    simp only [seller.create_stocksLoop] at h
    cases h
    simp
  | cons w rest ih =>
    intro U m r h
    simp only [seller.create_stocksLoop] at h
    by_cases hw : w.code ∈ U
    · rw [if_pos hw] at h
      cases hbq : bucketCount w.quantity with
      | error e => rw [hbq] at h; cases h
      | ok k =>
        rw [hbq] at h
        cases hloop : seller.create_stocksLoop rest (U.erase w.code) with
        | error e => rw [hloop] at h; cases h
        | ok p =>
          obtain ⟨m', r'⟩ := p
          rw [hloop] at h
          cases h
          intro e he
          rcases List.mem_cons.mp he with rfl | he'
          · exact ⟨w, List.mem_cons_self _ _, rfl, hbq⟩
          · obtain ⟨v, hv, hvc, hvq⟩ := ih _ _ _ hloop e he'
            exact ⟨v, List.mem_cons_of_mem _ hv, hvc, hvq⟩
    · rw [if_neg hw] at h
      intro e he
      obtain ⟨v, hv, hvc, hvq⟩ := ih U m r h e he
      exact ⟨v, List.mem_cons_of_mem _ hv, hvc, hvq⟩

theorem create_stocksLoop_ok :
    ∀ (F : List FeedRecord) (U : List String),
      (∀ w ∈ F, ∃ k, bucketCount w.quantity = .ok k) →
      ∃ m r, seller.create_stocksLoop F U = .ok (m, r) := by
  intro F
  induction F with
  | nil =>
    intro U _
    exact ⟨[], U, rfl⟩
  | cons w rest ih =>
    intro U hq
    obtain ⟨k, hk⟩ := hq w (List.mem_cons_self _ _)
    by_cases hw : w.code ∈ U
    · obtain ⟨m, r, hloop⟩ := ih (U.erase w.code) fun v hv => hq v (List.mem_cons_of_mem _ hv)
      refine ⟨{ offer_id := w.code, stock := k } :: m, r, ?_⟩
      simp only [seller.create_stocksLoop]
      rw [if_pos hw, hk, hloop]
    · obtain ⟨m, r, hloop⟩ := ih U fun v hv => hq v (List.mem_cons_of_mem _ hv)
      refine ⟨m, r, ?_⟩
      simp only [seller.create_stocksLoop]
      rw [if_neg hw]
      exact hloop

theorem create_stocksLoop_remaining :
    ∀ (F : List FeedRecord) (U : List String) (m : List StockEntry) (r : List String),
      U.Nodup → seller.create_stocksLoop F U = .ok (m, r) →
      r = U.filter (fun id => !((F.map FeedRecord.code).contains id)) := by
  intro F
  induction F with
  | nil =>
    intro U m r _ h
    simp only [seller.create_stocksLoop] at h
    cases h
    simp
  | cons w rest ih =>
    intro U m r hU h
    simp only [seller.create_stocksLoop] at h
    by_cases hw : w.code ∈ U
    · rw [if_pos hw] at h
      cases hbq : bucketCount w.quantity with
      | error e => rw [hbq] at h; cases h
      | ok k =>
        rw [hbq] at h
        cases hloop : seller.create_stocksLoop rest (U.erase w.code) with
        | error e => rw [hloop] at h; cases h
        | ok p =>
          obtain ⟨m', r'⟩ := p
          rw [hloop] at h
          cases h
          rw [ih _ _ _ (hU.erase w.code) hloop, hU.erase_eq_filter w.code,
            List.filter_filter]
          refine List.filter_congr fun x _ => ?_
          simp only [List.map_cons, List.contains_cons, Bool.not_or]
          rw [Bool.and_comm]
          rfl
    · rw [if_neg hw] at h
      rw [ih U m r hU h]
      refine List.filter_congr fun x hx => ?_
      have hxw : (x == w.code) = false := by
        simp only [beq_eq_false_iff_ne]
        rintro rfl
        exact hw hx
      rw [List.map_cons, List.contains_cons, hxw]
      simp

theorem market_create_stocksLoop_eq (wid d : String) :
    ∀ (F : List FeedRecord) (U : List String),
      market.create_stocksLoop wid d F U =
        match seller.create_stocksLoop F U with
        | .error e => .error e
        | .ok (m, r) => .ok (m.map (market.toMarketEntry wid d), r) := by
  intro F
  induction F with
  | nil => intro U; rfl
  | cons w rest ih =>
    intro U
    simp only [market.create_stocksLoop, seller.create_stocksLoop]
    by_cases hw : w.code ∈ U
    · rw [if_pos hw, if_pos hw]
      cases hbq : bucketCount w.quantity with
      | error e => rfl
      | ok k =>
        rw [ih (U.erase w.code)]
        cases hloop : seller.create_stocksLoop rest (U.erase w.code) with
        | error e => rfl
        | ok p => obtain ⟨m', r'⟩ := p; rfl
    · rw [if_neg hw, if_neg hw]
      exact ih U

theorem market_create_stocks_eq (wid d : String) (F : List FeedRecord) (U : List String) :
    market.create_stocks F U wid d =
      match seller.create_stocks F U with
      | .error e => .error e
      | .ok (s, r) => .ok (s.map (market.toMarketEntry wid d), r) := by
  simp only [market.create_stocks, seller.create_stocks, market_create_stocksLoop_eq]
  cases hloop : seller.create_stocksLoop F U with
  | error e => rfl
  | ok p =>
    obtain ⟨m, r⟩ := p
    simp [market.toMarketEntry]

/-! ## Helper lemmas about parsing and bucketing -/

theorem digitsToNat?_shape {l : List Char} {N : Nat} (h : digitsToNat? l = some N) :
    l ≠ [] ∧ l.all Char.isDigit = true := by
  rw [digitsToNat?] at h
  by_cases hnil : l = []
  · rw [if_pos hnil] at h; cases h
  · rw [if_neg hnil] at h
    by_cases hdig : l.all Char.isDigit = true
    · exact ⟨hnil, hdig⟩
    · rw [if_neg hdig] at h; cases h

theorem bucketCount_digits {s : String} {N : Nat} (hs : s ≠ "1")
    (h : digitsToNat? s.data = some N) : bucketCount s = .ok (N : Int) := by
  obtain ⟨hne, hdig⟩ := digitsToNat?_shape h
  have h10 : s ≠ ">10" := by
    rintro rfl
    exact absurd hdig (by decide)
  rw [bucketCount, if_neg h10, if_neg hs]
  have hpy : pyInt s = some (N : Int) := by
    rw [pyInt]
    cases hd : s.data with
    | nil => exact absurd hd hne
    | cons c cs =>
      simp only [pyIntChars]
      rw [hd] at hdig
      have hc : c.isDigit = true := by
        have := List.all_eq_true.mp hdig c (List.mem_cons_self _ _)
        simpa using this
      have hcm : ¬(c = '-') := by rintro rfl; exact absurd hc (by decide)
      have hcp : ¬(c = '+') := by rintro rfl; exact absurd hc (by decide)
      rw [if_neg hcm, if_neg hcp, ← hd, h]
      rfl
  rw [hpy]

theorem bucketCount_of_quantityOk {q : String} (h : QuantityExprOk q) :
    ∃ k, bucketCount q = .ok k := by
  rcases h with rfl | rfl | ⟨N, hN⟩
  · exact ⟨100, rfl⟩
  · exact ⟨0, rfl⟩
  · by_cases h1 : q = "1"
    · exact ⟨0, by rw [h1]; rfl⟩
    · exact ⟨(N : Int), bucketCount_digits h1 hN⟩

/-! ## Helper lemmas about price normalization -/

theorem pySplit_ne_nil (sep : Char) : ∀ l : List Char, pySplit sep l ≠ [] := by
  intro l
  cases l with
  | nil => simp [pySplit]
  | cons c cs =>
    rw [pySplit]
    by_cases hc : c = sep
    · rw [if_pos hc]; simp
    · rw [if_neg hc]
      cases pySplit sep cs with
      | nil => simp
      | cons h t => simp

theorem pySplit_headD (sep : Char) :
    ∀ l : List Char, (pySplit sep l).headD [] = l.takeWhile (fun c => c != sep) := by
  intro l
  induction l with
  | nil => rfl
  | cons c cs ih =>
    rw [pySplit]
    by_cases hc : c = sep
    · subst hc
      rw [if_pos rfl]
      simp [List.takeWhile_cons]
    · rw [if_neg hc]
      have hcb : (c != sep) = true := by simpa [bne] using hc
      cases hps : pySplit sep cs with
      | nil => exact absurd hps (pySplit_ne_nil sep cs)
      | cons h t =>
        rw [hps] at ih
        simp only [List.headD] at ih ⊢
        rw [List.takeWhile_cons, hcb, ← ih]
        simp

/-! ## Helper lemmas about the pagers -/

theorem sellerPagerLoop_some :
    ∀ (pages : List seller.SellerPage) (acc r : List String),
      seller.pagerLoop pages acc = some r →
      ∃ k, k ≤ pages.length ∧ r = acc ++ itemsUpTo (pages.take k) := by
  intro pages
  induction pages with
  | nil => intro acc r h; simp [seller.pagerLoop] at h
  | cons p rest ih =>
    intro acc r h
    simp only [seller.pagerLoop] at h
    by_cases ht : p.total = (acc ++ p.items).length
    · rw [if_pos ht] at h
      cases h
      exact ⟨1, by simp, by simp [itemsUpTo]⟩
    · rw [if_neg ht] at h
      obtain ⟨k, hk, hr⟩ := ih (acc ++ p.items) r h
      refine ⟨k + 1, by simpa using hk, ?_⟩
      simp [itemsUpTo, hr, List.append_assoc]

theorem sellerPagerLoop_total_some :
    ∀ (pages : List seller.SellerPage) (acc : List String),
      (∃ k, ∃ hk : k < pages.length,
        (pages.get ⟨k, hk⟩).total = acc.length + (itemsUpTo (pages.take (k + 1))).length) →
      ∃ r, seller.pagerLoop pages acc = some r := by
  intro pages
  induction pages with
  | nil =>
    intro acc h
    obtain ⟨k, hk, -⟩ := h
    exact absurd hk (by simp)
  | cons p rest ih =>
    intro acc h
    obtain ⟨k, hk, htot⟩ := h
    simp only [seller.pagerLoop]
    by_cases ht : p.total = (acc ++ p.items).length
    · rw [if_pos ht]; exact ⟨_, rfl⟩
    · rw [if_neg ht]
      cases k with
      | zero =>
        exfalso
        apply ht
        simpa [itemsUpTo] using htot
      | succ j =>
        apply ih (acc ++ p.items)
        refine ⟨j, by simpa using hk, ?_⟩
        rw [List.get_cons_succ] at htot
        rw [htot]
        simp [itemsUpTo, Nat.add_assoc]

theorem marketPagerLoop_some :
    ∀ (pages : List market.MarketPage) (acc r : List market.MarketEntry),
      market.pagerLoop pages acc = some r →
      ∃ k, k ≤ pages.length ∧ r = acc ++ entriesUpTo (pages.take k) := by
  intro pages
  induction pages with
  | nil => intro acc r h; simp [market.pagerLoop] at h
  | cons p rest ih =>
    intro acc r h
    simp only [market.pagerLoop] at h
    by_cases ht : p.paging.nextPageToken = ""
    · rw [if_pos ht] at h
      cases h
      exact ⟨1, by simp, by simp [entriesUpTo]⟩
    · rw [if_neg ht] at h
      obtain ⟨k, hk, hr⟩ := ih (acc ++ p.offerMappingEntries) r h
      refine ⟨k + 1, by simpa using hk, ?_⟩
      simp [entriesUpTo, hr, List.append_assoc]

theorem marketPagerLoop_token_some :
    ∀ (pages : List market.MarketPage) (acc : List market.MarketEntry),
      (∃ k, ∃ hk : k < pages.length, (pages.get ⟨k, hk⟩).paging.nextPageToken = "") →
      ∃ r, market.pagerLoop pages acc = some r := by
  intro pages
  induction pages with
  | nil =>
    intro acc h
    obtain ⟨k, hk, -⟩ := h
    exact absurd hk (by simp)
  | cons p rest ih =>
    intro acc h
    obtain ⟨k, hk, htok⟩ := h
    simp only [market.pagerLoop]
    by_cases ht : p.paging.nextPageToken = ""
    · rw [if_pos ht]; exact ⟨_, rfl⟩
    · rw [if_neg ht]
      cases k with
      | zero => exact absurd htok ht
      | succ j =>
        apply ih (acc ++ p.offerMappingEntries)
        rw [List.get_cons_succ] at htok
        exact ⟨j, by simpa using hk, htok⟩

/-! ## Helper lemmas about batching -/

theorem divideAux_nil {α : Type} (n : Nat) : ∀ fuel, seller.divideAux n fuel ([] : List α) = []
  | 0 => rfl
  | _ + 1 => rfl

theorem divideAux_flatten {α : Type} (n : Nat) (hn : 0 < n) :
    ∀ (fuel : Nat) (lst : List α), lst.length ≤ fuel →
      (seller.divideAux n fuel lst).flatten = lst := by
  intro fuel
  induction fuel with
  | zero =>
    intro lst h
    have hnil : lst = [] := List.eq_nil_of_length_eq_zero (Nat.le_zero.mp h)
    subst hnil
    rfl
  | succ f ih =>
    intro lst h
    cases lst with
    | nil => rfl
    | cons x xs =>
      simp only [seller.divideAux, List.flatten_cons]
      rw [ih (List.drop n (x :: xs)) ?_]
      · exact List.take_append_drop n (x :: xs)
      · have hl : xs.length + 1 ≤ f + 1 := by simpa using h
        simp only [List.length_drop, List.length_cons]
        omega

theorem divideAux_chunks {α : Type} (n : Nat) (hn : 0 < n) :
    ∀ (fuel : Nat) (lst : List α), ∀ c ∈ seller.divideAux n fuel lst,
      0 < c.length ∧ c.length ≤ n := by
  intro fuel
  induction fuel with
  | zero => intro lst c hc; simp [seller.divideAux] at hc
  | succ f ih =>
    intro lst c hc
    cases lst with
    | nil => simp [seller.divideAux] at hc
    | cons x xs =>
      simp only [seller.divideAux] at hc
      rcases List.mem_cons.mp hc with rfl | hc'
      · constructor
        · simp only [List.length_take, List.length_cons]
          omega
        · simp only [List.length_take]
          exact Nat.min_le_left _ _
      · exact ih _ c hc'

theorem divideAux_dropLast {α : Type} (n : Nat) (hn : 0 < n) :
    ∀ (fuel : Nat) (lst : List α), lst.length ≤ fuel →
      ∀ c ∈ (seller.divideAux n fuel lst).dropLast, c.length = n := by
  intro fuel
  induction fuel with
  | zero =>
    intro lst h c hc
    have hnil : lst = [] := List.eq_nil_of_length_eq_zero (Nat.le_zero.mp h)
    subst hnil
    simp [seller.divideAux] at hc
  | succ f ih =>
    intro lst h c hc
    cases lst with
    | nil => simp [seller.divideAux] at hc
    | cons x xs =>
      simp only [seller.divideAux] at hc
      cases hrest : seller.divideAux n f (List.drop n (x :: xs)) with
      | nil => rw [hrest] at hc; simp at hc
      | cons c0 cs =>
        rw [hrest, List.dropLast_cons₂] at hc
        have hfuel : (List.drop n (x :: xs)).length ≤ f := by
          have hl : xs.length + 1 ≤ f + 1 := by simpa using h
          simp only [List.length_drop, List.length_cons]
          omega
        rcases List.mem_cons.mp hc with rfl | hc'
        · have hd : List.drop n (x :: xs) ≠ [] := by
            intro hdnil
            rw [hdnil, divideAux_nil] at hrest
            cases hrest
          have hlt : n < (x :: xs).length := by
            by_contra hge
            push_neg at hge
            exact hd (List.drop_eq_nil_of_le hge)
          simp only [List.length_take]
          omega
        · rw [← hrest] at hc'
          exact ih _ hfuel c hc'

theorem create_prices_mem :
    ∀ (F : List FeedRecord) (l : List String) (p : seller.SellerPrice),
      p ∈ seller.create_prices F l → p.offer_id ∈ l := by
  intro F
  induction F with
  | nil =>
    intro l p hp
    simp [seller.create_prices] at hp
  | cons w rest ih =>
    intro l p hp
    simp only [seller.create_prices] at hp
    by_cases hw : w.code ∈ l
    · rw [if_pos hw] at hp
      rcases List.mem_cons.mp hp with rfl | hp'
      · exact hw
      · exact ih l p hp'
    · rw [if_neg hw] at hp
      exact ih l p hp

/-! ## Claim theorems -/

/-- C7: for every matched feed record, the stock emitted by `create_stocks`
is 100 for the quantity string `">10"`, 0 for `"1"`, and the integer `N`
itself for any other decimal representation of a non-negative integer `N`;
every emitted entry is either bucketed from a feed record with the same
code or is a zero-stock gap filler. -/
theorem c7_stock_bucketing :
    bucketCount ">10" = .ok 100 ∧
    bucketCount "1" = .ok 0 ∧
    (∀ (s : String) (N : Nat), s ≠ "1" → digitsToNat? s.data = some N →
      bucketCount s = .ok (N : Int)) ∧
    (∀ (F : List FeedRecord) (U : List String) (stocks : List StockEntry)
        (remaining : List String),
      seller.create_stocks F U = .ok (stocks, remaining) →
      ∀ e ∈ stocks,
        (∃ w ∈ F, w.code = e.offer_id ∧ bucketCount w.quantity = .ok e.stock) ∨
        (e.offer_id ∈ remaining ∧ e.stock = 0)) := by
  refine ⟨rfl, rfl, fun s N h1 hN => bucketCount_digits h1 hN, ?_⟩
  intro F U stocks remaining h e he
  unfold seller.create_stocks at h
  cases hloop : seller.create_stocksLoop F U with
  | error err => rw [hloop] at h; cases h
  | ok p =>
    obtain ⟨m, r⟩ := p
    rw [hloop] at h
    cases h
    rcases List.mem_append.mp he with hm | hf
    · exact Or.inl (create_stocksLoop_from_feed F U _ _ hloop e hm)
    · obtain ⟨id, hid, rfl⟩ := List.mem_map.mp hf
      exact Or.inr ⟨hid, rfl⟩

/-- Witness for C7 at concrete inputs. -/
theorem c7_stock_bucketing_witness :
    bucketCount "7" = .ok 7 ∧
    (∀ e ∈ [StockEntry.mk "A" 100, StockEntry.mk "B" 0],
      (∃ w ∈ [FeedRecord.mk "A" ">10" "0"],
        w.code = e.offer_id ∧ bucketCount w.quantity = .ok e.stock) ∨
      (e.offer_id ∈ ["B"] ∧ e.stock = 0)) := by
  refine ⟨c7_stock_bucketing.2.2.1 "7" 7 (by decide) (by decide), ?_⟩
  exact c7_stock_bucketing.2.2.2 [⟨"A", ">10", "0"⟩] ["A", "B"]
    [⟨"A", 100⟩, ⟨"B", 0⟩] ["B"] rfl

/-- C8: `price_conversion` equals truncation at the first `'.'` followed by
deletion of every non-digit character of the kept segment; in particular the
spec's two examples hold, and nothing after the first decimal point
contributes to the result. -/
theorem c8_price_conversion_truncates :
    (∀ s : String, seller.price_conversion s = normalize_price_spec s) ∧
    seller.price_conversion "5\x27990.00 руб." = "5990" ∧
    seller.price_conversion "1234" = "1234" := by
  refine ⟨fun s => ?_, rfl, rfl⟩
  rw [seller.price_conversion, normalize_price_spec, pySplit_headD]

/-- C9: for every positive `n`, the chunks of `divide lst n` concatenate
back to `lst`, every chunk but the last has exactly `n` elements, every
chunk has between 1 and `n` elements, and an empty list yields no chunks. -/
theorem c9_divide_partition {α : Type} (lst : List α) (n : Nat) (h : 0 < n) :
    (seller.divide lst n).flatten = lst ∧
    (∀ c ∈ (seller.divide lst n).dropLast, c.length = n) ∧
    (∀ c ∈ seller.divide lst n, 0 < c.length ∧ c.length ≤ n) ∧
    seller.divide ([] : List α) n = [] := by
  have hn0 : ¬(n = 0) := Nat.pos_iff_ne_zero.mp h
  simp only [seller.divide, if_neg hn0]
  refine ⟨divideAux_flatten n h _ _ le_rfl,
          divideAux_dropLast n h _ _ le_rfl,
          fun c hc => divideAux_chunks n h _ _ c hc, rfl⟩

/-- Witness for C9 at a concrete list and chunk size. -/
theorem c9_divide_partition_witness :
    (seller.divide [1, 2, 3] 2).flatten = [1, 2, 3] ∧
    seller.divide ([] : List Nat) 2 = [] := by
  obtain ⟨h1, -, -, h4⟩ := c9_divide_partition [1, 2, 3] 2 (by decide)
  exact ⟨h1, h4⟩

/-- C10: each pager terminates under its platform's termination predicate —
total-count-reached for the Seller pager, empty-cursor for the Market
pager — and returns the items accumulated from the consumed prefix of
pages. -/
theorem c10_pager_termination :
    (∀ pages : List seller.SellerPage,
      (∃ k, ∃ hk : k < pages.length,
        (pages.get ⟨k, hk⟩).total = (itemsUpTo (pages.take (k + 1))).length) →
      ∃ r, seller.get_offer_ids pages = some r ∧
        ∃ k, k ≤ pages.length ∧ r = itemsUpTo (pages.take k)) ∧
    (∀ pages : List market.MarketPage,
      (∃ k, ∃ hk : k < pages.length, (pages.get ⟨k, hk⟩).paging.nextPageToken = "") →
      ∃ r, market.get_offer_ids pages = some r ∧
        ∃ k, k ≤ pages.length ∧
          r = (entriesUpTo (pages.take k)).map (fun p => p.offer.shopSku)) := by
  constructor
  · intro pages hterm
    obtain ⟨r, hr⟩ := sellerPagerLoop_total_some pages [] (by simpa using hterm)
    obtain ⟨k, hk, hrr⟩ := sellerPagerLoop_some pages [] r hr
    exact ⟨r, hr, k, hk, by simpa using hrr⟩
  · intro pages hterm
    obtain ⟨e, he⟩ := marketPagerLoop_token_some pages [] hterm
    obtain ⟨k, hk, hee⟩ := marketPagerLoop_some pages [] e he
    refine ⟨e.map (fun p => p.offer.shopSku), ?_, k, hk, ?_⟩
    · rw [market.get_offer_ids, he]
      rfl
    · rw [hee]
      simp

/-- Witness for C10: one-page transports satisfying each termination
predicate. -/
theorem c10_pager_termination_witness :
    (∃ r, seller.get_offer_ids [seller.SellerPage.mk ["A"] 1 "x"] = some r ∧
      ∃ k, k ≤ 1 ∧ r = itemsUpTo ([seller.SellerPage.mk ["A"] 1 "x"].take k)) ∧
    (∃ r, market.get_offer_ids [market.MarketPage.mk [⟨⟨"B"⟩⟩] ⟨""⟩] = some r ∧
      ∃ k, k ≤ 1 ∧
        r = (entriesUpTo ([market.MarketPage.mk [⟨⟨"B"⟩⟩] ⟨""⟩].take k)).map
          (fun p => p.offer.shopSku)) := by
  constructor
  · have h := c10_pager_termination.1 [⟨["A"], 1, "x"⟩] ⟨0, by decide, by decide⟩
    simpa using h
  · have h := c10_pager_termination.2 [⟨[⟨⟨"B"⟩⟩], ⟨""⟩⟩] ⟨0, by decide, rfl⟩
    simpa using h

/-- C1: for every feed `F` (records with spec-conformant quantity
expressions) and every pairwise-distinct universe `U`, `create_stocks`
returns a list of the same length as `U` whose `offer_id` (resp. `sku`)
values are exactly the set `U`, without duplicates or omissions; an
identifier with no matching feed code gets stock 0, and a feed record whose
code matches no member of `U` contributes no entry (the output ids all come
from `U`). -/
theorem c1_reconcile_universe (F : List FeedRecord) (U : List String)
    (wid d : String) (hU : U.Nodup) (hq : ∀ w ∈ F, QuantityExprOk w.quantity) :
    ∃ stocks remaining,
      seller.create_stocks F U = .ok (stocks, remaining) ∧
      market.create_stocks F U wid d =
        .ok (stocks.map (market.toMarketEntry wid d), remaining) ∧
      stocks.length = U.length ∧
      (stocks.map StockEntry.offer_id).Nodup ∧
      (∀ x, x ∈ stocks.map StockEntry.offer_id ↔ x ∈ U) ∧
      ((stocks.map (market.toMarketEntry wid d)).map market.MarketStockEntry.sku =
        stocks.map StockEntry.offer_id) ∧
      (∀ id ∈ U, (∀ w ∈ F, w.code ≠ id) →
        ∀ e ∈ stocks, e.offer_id = id → e.stock = 0) := by
  obtain ⟨m, r, hloop⟩ :=
    create_stocksLoop_ok F U (fun w hw => bucketCount_of_quantityOk (hq w hw))
  have hcs : seller.create_stocks F U =
      .ok (m ++ r.map (fun offer_id => { offer_id := offer_id, stock := 0 }), r) := by
    unfold seller.create_stocks
    rw [hloop]
  have hperm := create_stocksLoop_perm F U m r hloop
  have hkey : (m ++ r.map (fun offer_id =>
      ({ offer_id := offer_id, stock := 0 } : StockEntry))).map StockEntry.offer_id =
      m.map StockEntry.offer_id ++ r := by
    simp only [List.map_append, List.map_map]
    rw [show (StockEntry.offer_id ∘ fun offer_id =>
      ({ offer_id := offer_id, stock := 0 } : StockEntry)) = id from rfl, List.map_id]
  refine ⟨_, r, hcs, ?_, ?_, ?_, ?_, ?_, ?_⟩
  · rw [market_create_stocks_eq wid d F U, hcs]
  · have := hperm.length_eq
    have hlen : ((m ++ r.map (fun offer_id =>
        ({ offer_id := offer_id, stock := 0 } : StockEntry))).map StockEntry.offer_id).length =
        U.length := by
      rw [hkey]
      exact hperm.length_eq
    simpa using hlen
  · rw [hkey]
    exact hperm.nodup_iff.mpr hU
  · intro x
    rw [hkey]
    exact hperm.mem_iff
  · rw [List.map_map]
    rfl
  · intro id hid hnf e he heid
    rcases List.mem_append.mp he with hm | hf
    · obtain ⟨w, hw, hwc, -⟩ := create_stocksLoop_from_feed F U m r hloop e hm
      exact absurd (hwc.trans heid) (hnf w hw)
    · obtain ⟨id2, hid2, rfl⟩ := List.mem_map.mp hf
      rfl

/-- Witness for C1 at a concrete feed and universe. -/
theorem c1_reconcile_universe_witness :
    ∃ stocks remaining,
      seller.create_stocks [⟨"A", ">10", "100.00"⟩] ["A", "B"] = .ok (stocks, remaining) ∧
      market.create_stocks [⟨"A", ">10", "100.00"⟩] ["A", "B"] "W" "D" =
        .ok (stocks.map (market.toMarketEntry "W" "D"), remaining) ∧
      stocks.length = (["A", "B"] : List String).length ∧
      (stocks.map StockEntry.offer_id).Nodup ∧
      (∀ x, x ∈ stocks.map StockEntry.offer_id ↔ x ∈ (["A", "B"] : List String)) ∧
      ((stocks.map (market.toMarketEntry "W" "D")).map market.MarketStockEntry.sku =
        stocks.map StockEntry.offer_id) ∧
      (∀ id ∈ (["A", "B"] : List String),
        (∀ w ∈ [FeedRecord.mk "A" ">10" "100.00"], w.code ≠ id) →
        ∀ e ∈ stocks, e.offer_id = id → e.stock = 0) := by
  refine c1_reconcile_universe [⟨"A", ">10", "100.00"⟩] ["A", "B"] "W" "D" (by decide) ?_
  intro w hw
  rcases List.mem_singleton.mp hw with rfl
  exact Or.inl rfl

/-- C3: `create_stocks` removes every matched identifier from the caller's
`offer_ids` list (in-place mutation, modelled by the returned final list):
afterwards that list holds exactly the universe identifiers with no matching
feed code; `seller.main` then hands this same mutated list to
`create_prices`, which emits price entries only for codes still present in
it. -/
theorem c3_offer_ids_mutation (F : List FeedRecord) (U : List String)
    (hU : U.Nodup) (hq : ∀ w ∈ F, QuantityExprOk w.quantity) :
    ∃ stocks remaining,
      seller.create_stocks F U = .ok (stocks, remaining) ∧
      remaining = U.filter (fun id => !((F.map FeedRecord.code).contains id)) ∧
      seller.mainFlow F U = .ok (stocks, seller.create_prices F remaining) ∧
      (∀ p ∈ seller.create_prices F remaining, p.offer_id ∈ remaining) := by
  obtain ⟨m, r, hloop⟩ :=
    create_stocksLoop_ok F U (fun w hw => bucketCount_of_quantityOk (hq w hw))
  have hcs : seller.create_stocks F U =
      .ok (m ++ r.map (fun offer_id => { offer_id := offer_id, stock := 0 }), r) := by
    unfold seller.create_stocks
    rw [hloop]
  refine ⟨_, r, hcs, create_stocksLoop_remaining F U m r hU hloop, ?_,
    fun p hp => create_prices_mem F r p hp⟩
  unfold seller.mainFlow
  rw [hcs]

/-- Witness for C3 at a concrete feed and universe: the matched identifier
"A" is gone from the caller's list, and `create_prices` on the mutated list
prices nothing because only unmatched identifiers remain. -/
theorem c3_offer_ids_mutation_witness :
    ∃ stocks remaining,
      seller.create_stocks [⟨"A", "5", "1.0"⟩] ["A", "B"] = .ok (stocks, remaining) ∧
      remaining = (["A", "B"] : List String).filter
        (fun id => !(([⟨"A", "5", "1.0"⟩] : List FeedRecord).map FeedRecord.code).contains id) ∧
      seller.mainFlow [⟨"A", "5", "1.0"⟩] ["A", "B"] =
        .ok (stocks, seller.create_prices [⟨"A", "5", "1.0"⟩] remaining) ∧
      (∀ p ∈ seller.create_prices [⟨"A", "5", "1.0"⟩] remaining,
        p.offer_id ∈ remaining) := by
  refine c3_offer_ids_mutation [⟨"A", "5", "1.0"⟩] ["A", "B"] (by decide) ?_
  intro w hw
  rcases List.mem_singleton.mp hw with rfl
  exact Or.inr (Or.inr ⟨5, by decide⟩)

/-- C2 counterexample: a terminal page repeating identifier "A" makes
`get_offer_ids` return a universe with a duplicate — identifiers are not
deduplicated, refuting the no-duplicates claim. -/
theorem c2_counterexample :
    market.get_offer_ids [⟨[⟨⟨"A"⟩⟩, ⟨⟨"A"⟩⟩], ⟨""⟩⟩] = some ["A", "A"] ∧
    ¬ (["A", "A"] : List String).Nodup := ⟨rfl, by decide⟩

/-- C2 (amended): the universe returned by `get_offer_ids` is the plain
concatenation of the items of the consumed prefix of pages, in page order;
duplicates carried by the pages are preserved, not removed. -/
theorem c2_offer_ids_concat :
    (∀ (pages : List seller.SellerPage) (r : List String),
      seller.get_offer_ids pages = some r →
      ∃ k, k ≤ pages.length ∧ r = itemsUpTo (pages.take k)) ∧
    (∀ (pages : List market.MarketPage) (r : List String),
      market.get_offer_ids pages = some r →
      ∃ k, k ≤ pages.length ∧
        r = (entriesUpTo (pages.take k)).map (fun p => p.offer.shopSku)) := by
  constructor
  · intro pages r h
    obtain ⟨k, hk, hr⟩ := sellerPagerLoop_some pages [] r h
    exact ⟨k, hk, by simpa using hr⟩
  · intro pages r h
    cases hp : market.pagerLoop pages [] with
    | none => rw [market.get_offer_ids, hp] at h; cases h
    | some e =>
      rw [market.get_offer_ids, hp] at h
      obtain ⟨k, hk, he⟩ := marketPagerLoop_some pages [] e hp
      cases h
      refine ⟨k, hk, ?_⟩
      rw [he]
      simp

/-- Witness for the amended C2 at concrete two-page transports. -/
theorem c2_offer_ids_concat_witness :
    (∃ k, k ≤ 2 ∧ (["A", "B", "C"] : List String) =
      itemsUpTo ([seller.SellerPage.mk ["A", "B"] 3 "x",
        seller.SellerPage.mk ["C"] 3 ""].take k)) ∧
    (∃ k, k ≤ 1 ∧ (["A", "A"] : List String) =
      (entriesUpTo ([market.MarketPage.mk [⟨⟨"A"⟩⟩, ⟨⟨"A"⟩⟩] ⟨""⟩].take k)).map
        (fun p => p.offer.shopSku)) :=
  ⟨c2_offer_ids_concat.1 [⟨["A", "B"], 3, "x"⟩, ⟨["C"], 3, ""⟩] ["A", "B", "C"] rfl,
   c2_offer_ids_concat.2 [⟨[⟨⟨"A"⟩⟩, ⟨⟨"A"⟩⟩], ⟨""⟩⟩] ["A", "A"] rfl⟩

/-- C4 counterexample: the second (DBS) campaign would succeed on its own
with a non-empty output, but after the first (FBS) campaign's submission
transport raises on batch 0, `market.main` ends with no output for either
campaign — the second campaign is prevented from running. -/
theorem c4_counterexample :
    market.runCampaign ⟨[⟨[⟨⟨"B"⟩⟩], ⟨""⟩⟩], [], "W2", []⟩ "D" =
      .ok [⟨"B", "W2", [⟨0, "FIT", "D"⟩]⟩] ∧
    market.main ⟨[⟨[⟨⟨"A"⟩⟩], ⟨""⟩⟩], [], "W1", [0]⟩
      ⟨[⟨[⟨⟨"B"⟩⟩], ⟨""⟩⟩], [], "W2", []⟩ "D" = (none, none) := ⟨rfl, rfl⟩

/-- C4 (amended): in `market.main` both campaigns run inside one shared
`try/except`, so a transport failure in the first (FBS) campaign aborts the
block before the second (DBS) campaign starts and neither produces output;
a failure in the second campaign does not disturb the first campaign's
completed output, and when the first succeeds the second completes with its
own output. -/
theorem c4_campaign_dependence (fbs dbs : market.CampaignEnv) (d : String) :
    (∀ e, market.runCampaign fbs d = .error e → market.main fbs dbs d = (none, none)) ∧
    (∀ s1, market.runCampaign fbs d = .ok s1 → (market.main fbs dbs d).1 = some s1) ∧
    (∀ s1 s2, market.runCampaign fbs d = .ok s1 → market.runCampaign dbs d = .ok s2 →
      market.main fbs dbs d = (some s1, some s2)) := by
  refine ⟨?_, ?_, ?_⟩
  · intro e he
    unfold market.main
    rw [he]
  · intro s1 h1
    unfold market.main
    rw [h1]
    cases market.runCampaign dbs d <;> rfl
  · intro s1 s2 h1 h2
    unfold market.main
    rw [h1, h2]

/-- Witness for the amended C4 at concrete campaign environments. -/
theorem c4_campaign_dependence_witness :
    market.main ⟨[⟨[⟨⟨"A"⟩⟩], ⟨""⟩⟩], [], "V1", [0]⟩
      ⟨[⟨[⟨⟨"B"⟩⟩], ⟨""⟩⟩], [], "V2", []⟩ "T" = (none, none) ∧
    market.main ⟨[⟨[⟨⟨"A"⟩⟩], ⟨""⟩⟩], [], "V1", []⟩
      ⟨[⟨[⟨⟨"B"⟩⟩], ⟨""⟩⟩], [], "V2", []⟩ "T" =
      (some [⟨"A", "V1", [⟨0, "FIT", "T"⟩]⟩], some [⟨"B", "V2", [⟨0, "FIT", "T"⟩]⟩]) :=
  ⟨(c4_campaign_dependence ⟨[⟨[⟨⟨"A"⟩⟩], ⟨""⟩⟩], [], "V1", [0]⟩
      ⟨[⟨[⟨⟨"B"⟩⟩], ⟨""⟩⟩], [], "V2", []⟩ "T").1 "TransportError" rfl,
   (c4_campaign_dependence ⟨[⟨[⟨⟨"A"⟩⟩], ⟨""⟩⟩], [], "V1", []⟩
      ⟨[⟨[⟨⟨"B"⟩⟩], ⟨""⟩⟩], [], "V2", []⟩ "T").2.2 _ _ rfl rfl⟩

/-- C5 counterexample: with universe ["A", "B"] and a feed listing B before
A, the matched entries come out in feed order ["B", "A"], not in universe
order — refuting the claim that the matched prefix is ordered by universe
position. -/
theorem c5_counterexample :
    seller.create_stocks [⟨"B", "2", "0"⟩, ⟨"A", "3", "0"⟩] ["A", "B"] =
      .ok ([⟨"B", 2⟩, ⟨"A", 3⟩], []) ∧
    List.map StockEntry.offer_id [StockEntry.mk "B" 2, StockEntry.mk "A" 3] ≠
      ["A", "B"] := ⟨rfl, by decide⟩

/-- C5 (amended): the output of `create_stocks` is the matched entries
first, ordered by the position of each record in the FEED (a subsequence of
the feed's code sequence), followed by the zero-stock entries for unmatched
identifiers in universe order (the remaining list is a subsequence of the
universe); the Market variant emits the same entries in the same order. -/
theorem c5_output_order (F : List FeedRecord) (U : List String) (wid d : String)
    (stocks : List StockEntry) (remaining : List String)
    (h : seller.create_stocks F U = .ok (stocks, remaining)) :
    ∃ matched,
      stocks = matched ++ remaining.map (fun id => { offer_id := id, stock := 0 }) ∧
      (matched.map StockEntry.offer_id).Sublist (F.map FeedRecord.code) ∧
      remaining.Sublist U ∧
      market.create_stocks F U wid d =
        .ok (stocks.map (market.toMarketEntry wid d), remaining) := by
  unfold seller.create_stocks at h
  cases hloop : seller.create_stocksLoop F U with
  | error err => rw [hloop] at h; cases h
  | ok p =>
    obtain ⟨m, r⟩ := p
    rw [hloop] at h
    cases h
    obtain ⟨h1, h2⟩ := create_stocksLoop_sublist F U _ _ hloop
    refine ⟨m, rfl, h1, h2, ?_⟩
    rw [market_create_stocks_eq wid d F U]
    unfold seller.create_stocks
    rw [hloop]

/-- Witness for the amended C5 at a concrete feed and universe. -/
theorem c5_output_order_witness :
    ∃ matched,
      ([⟨"B", 2⟩, ⟨"A", 3⟩, ⟨"C", 0⟩] : List StockEntry) =
        matched ++ (["C"] : List String).map (fun id => { offer_id := id, stock := 0 }) ∧
      (matched.map StockEntry.offer_id).Sublist
        (([⟨"B", "2", "0"⟩, ⟨"A", "3", "0"⟩] : List FeedRecord).map FeedRecord.code) ∧
      (["C"] : List String).Sublist ["A", "B", "C"] ∧
      market.create_stocks [⟨"B", "2", "0"⟩, ⟨"A", "3", "0"⟩] ["A", "B", "C"] "W" "D" =
        .ok (([⟨"B", 2⟩, ⟨"A", 3⟩, ⟨"C", 0⟩] : List StockEntry).map
          (market.toMarketEntry "W" "D"), ["C"]) :=
  c5_output_order [⟨"B", "2", "0"⟩, ⟨"A", "3", "0"⟩] ["A", "B", "C"] "W" "D"
    [⟨"B", 2⟩, ⟨"A", 3⟩, ⟨"C", 0⟩] ["C"] rfl

/-- C6 counterexample: a matched feed record whose quantity string "abc" is
neither ">10", nor "1", nor a parseable integer makes `create_stocks` raise
(`ValueError` from `int(...)`) instead of returning normally — in both
platform variants. -/
theorem c6_counterexample :
    seller.create_stocks [⟨"A", "abc", "0"⟩] ["A"] =
      .error "ValueError: invalid literal for int()" ∧
    market.create_stocks [⟨"A", "abc", "0"⟩] ["A"] "W" "D" =
      .error "ValueError: invalid literal for int()" := ⟨rfl, rfl⟩

/-- C6 (amended): the quantity bucketing is NOT total — an unparseable
quantity string on a matched record raises a `ValueError` that aborts the
reconciliation (fail-fast) rather than being treated as a missing/zero
entry; `create_stocks` completes normally whenever every feed quantity is a
sentinel or a parseable integer. -/
theorem c6_fail_fast :
    (∀ q : String, q ≠ ">10" → q ≠ "1" → pyInt q = none →
      bucketCount q = .error "ValueError: invalid literal for int()") ∧
    (∀ (F : List FeedRecord) (U : List String),
      (∀ w ∈ F, QuantityExprOk w.quantity) →
      ∃ stocks remaining, seller.create_stocks F U = .ok (stocks, remaining)) := by
  constructor
  · intro q h10 h1 hpy
    rw [bucketCount, if_neg h10, if_neg h1, hpy]
  · intro F U hq
    obtain ⟨m, r, hloop⟩ :=
      create_stocksLoop_ok F U (fun w hw => bucketCount_of_quantityOk (hq w hw))
    refine ⟨m ++ r.map (fun offer_id => { offer_id := offer_id, stock := 0 }), r, ?_⟩
    unfold seller.create_stocks
    rw [hloop]

/-- Witness for the amended C6: "abc" fails the bucketing, and a feed with
parseable quantities reconciles normally. -/
theorem c6_fail_fast_witness :
    bucketCount "abc" = .error "ValueError: invalid literal for int()" ∧
    (∃ stocks remaining,
      seller.create_stocks [⟨"A", "2", "0"⟩] ["A", "B"] = .ok (stocks, remaining)) := by
  refine ⟨c6_fail_fast.1 "abc" (by decide) (by decide) (by decide), ?_⟩
  refine c6_fail_fast.2 [⟨"A", "2", "0"⟩] ["A", "B"] ?_
  intro w hw
  rcases List.mem_singleton.mp hw with rfl
  exact Or.inr (Or.inr ⟨2, by decide⟩)

end SellerApis
